import Mathlib

/-!
Shallow embedding of the polymarket market-making bot, covering the risk
manager, the order simulator, the arbitrage detector, the Kelly sizer, the
correlation-aware portfolio cap, the feed data store, the volatility
tracker and the order-book model. Prices and monetary quantities are
modelled as rationals; Python `Decimal` and float arithmetic on the small
quantities involved is exact rational arithmetic. Wall-clock time is an
explicit parameter `now`. Python `int(...)` on a `Decimal` truncates
toward zero, modelled by `ratTrunc`; `Decimal.quantize(Decimal("1"))`
rounds to the nearest integer with ties to even, modelled by
`roundHalfEven`.
-/

/-- Truncation toward zero, the semantics of Python `int(x)` on a numeric `x`. -/
def ratTrunc (q : ℚ) : ℤ :=
  if 0 ≤ q then ⌊q⌋ else -⌊-q⌋

/-- Round to the nearest integer with ties going to the even integer: the
default rounding mode (ROUND_HALF_EVEN) of Python `Decimal.quantize`. -/
def roundHalfEven (q : ℚ) : ℤ :=
  let f := ⌊q⌋
  let r := q - f
  if r < 1/2 then f
  else if 1/2 < r then f + 1
  else if f % 2 = 0 then f else f + 1

/-! ## Order-book model (src/models.py) -/

/-- Single price level in the order book. -/
structure PriceLevel where
  price : ℚ
  size : ℚ
deriving DecidableEq, Repr

/-- Order book for a token, mirroring `OrderBook` in src/models.py. -/
structure OrderBook where
  bids : List PriceLevel
  asks : List PriceLevel
deriving DecidableEq, Repr

/-- Best (highest) bid price: `self.bids[0].price if self.bids else None`. -/
def OrderBook.bestBid (ob : OrderBook) : Option ℚ :=
  match ob.bids with
  | [] => Option.none
  | l :: _ => Option.some l.price

/-- Best (lowest) ask price: `self.asks[0].price if self.asks else None`. -/
def OrderBook.bestAsk (ob : OrderBook) : Option ℚ :=
  match ob.asks with
  | [] => Option.none
  | l :: _ => Option.some l.price

/-- Python truthiness of an optional float: `None` and `0.0` are falsy. -/
def truthy : Option ℚ → Bool
  | Option.none => false
  | Option.some x => x != 0

/-- Bid-ask spread: guarded by `if self.best_bid and self.best_ask`, which
tests truthiness, so a best price of 0 also yields `None`. -/
def OrderBook.spread (ob : OrderBook) : Option ℚ :=
  if truthy ob.bestBid ∧ truthy ob.bestAsk then
    match ob.bestBid, ob.bestAsk with
    | Option.some b, Option.some a => Option.some (a - b)
    | _, _ => Option.none
  else Option.none

/-- Midpoint price, with the same truthiness guard as `spread`. -/
def OrderBook.midpoint (ob : OrderBook) : Option ℚ :=
  if truthy ob.bestBid ∧ truthy ob.bestAsk then
    match ob.bestBid, ob.bestAsk with
    | Option.some b, Option.some a => Option.some ((b + a) / 2)
    | _, _ => Option.none
  else Option.none

/-! ## Feed data store (src/feed/data_store.py), sequence-gap detection -/

/-- Gap-detection state of the data store. The Python dict lookups carry
defaults (`self._sequence.get(token_id, -1)` and
`self._gap_count.get(token_id, 0)`), so the maps are modelled as total
functions with those defaults baked in; -1 is the sentinel meaning no
predecessor has been seen. -/
structure DataStore where
  seqMap : String → ℤ
  gapCount : String → ℕ

/-- Mirrors `DataStore.check_sequence`: returns true when the sequence is
OK and false when a gap is detected, updating the state. -/
def DataStore.checkSequence (s : DataStore) (tokenId : String) (seq : Option ℤ) :
    Bool × DataStore :=
  match seq with
  | Option.none => (true, s)
  | Option.some q =>
    let last := s.seqMap tokenId
    if last = -1 then
      (true, { s with seqMap := fun t => if t = tokenId then q else s.seqMap t })
    else if q = last + 1 then
      (true, { s with seqMap := fun t => if t = tokenId then q else s.seqMap t })
    else
      (false,
        { seqMap := fun t => if t = tokenId then q else s.seqMap t,
          gapCount := fun t => if t = tokenId then s.gapCount tokenId + 1 else s.gapCount t })

/-! ## Arbitrage detector (src/alpha/arbitrage.py) -/

/-- Classification of a YES/NO pair, mirroring `ArbitrageType`. -/
inductive ArbitrageType
  | none
  | sellBoth
  | buyBoth
  | skewQuotes
deriving DecidableEq, Repr

/-- Detected arbitrage opportunity, mirroring `ArbitrageSignal` (the token
ids and the human-readable action string are omitted). -/
structure ArbitrageSignal where
  type : ArbitrageType
  yesPrice : ℚ
  noPrice : ℚ
  sumPrice : ℚ
  profitBps : ℤ
  confidence : ℚ
deriving DecidableEq, Repr

/-- Class constant `SKEW_THRESHOLD_BPS = 10`. -/
def skewThresholdBps : ℤ := 10

/-- Mirrors `ArbitrageDetector.check_pair`. `fee_rate` and
`min_profit_bps` are the constructor parameters of the detector. -/
def ArbitrageDetector.checkPair (feeRate : ℚ) (minProfitBps : ℤ)
    (yesPrice noPrice : ℚ) : ArbitrageSignal :=
  let sumPrice := yesPrice + noPrice
  let deviation := sumPrice - 1
  let deviationBps : ℤ := ratTrunc (|deviation| * 10000)
  let feeCostBps : ℤ := ratTrunc (feeRate * 2 * 10000)
  let netProfitBps : ℤ := deviationBps - feeCostBps
  if 0 < deviation ∧ minProfitBps ≤ netProfitBps then
    { type := ArbitrageType.sellBoth, yesPrice := yesPrice, noPrice := noPrice,
      sumPrice := sumPrice, profitBps := netProfitBps,
      confidence := min 1 ((netProfitBps : ℚ) / 100) }
  else if deviation < 0 ∧ minProfitBps ≤ netProfitBps then
    { type := ArbitrageType.buyBoth, yesPrice := yesPrice, noPrice := noPrice,
      sumPrice := sumPrice, profitBps := netProfitBps,
      confidence := min 1 ((netProfitBps : ℚ) / 100) }
  else if skewThresholdBps ≤ |deviationBps| then
    { type := ArbitrageType.skewQuotes, yesPrice := yesPrice, noPrice := noPrice,
      sumPrice := sumPrice, profitBps := |deviationBps|, confidence := 1/2 }
  else
    { type := ArbitrageType.none, yesPrice := yesPrice, noPrice := noPrice,
      sumPrice := sumPrice, profitBps := 0, confidence := 0 }

/-! ## Kelly criterion sizing (src/risk/kelly.py) -/

/-- Mirrors `KellyCalculator.calculate`: the fractional Kelly percentage,
capped at `max_position_pct`, never negative. -/
def KellyCalculator.calculate (fraction maxPositionPct : ℚ)
    (winRate winLossR : ℚ) : ℚ :=
  if winRate ≤ 0 ∨ 1 ≤ winRate then 0
  else if winLossR ≤ 0 then 0
  else
    let p := winRate
    let q := 1 - winRate
    let b := winLossR
    let fullKelly := (p * b - q) / b
    if fullKelly ≤ 0 then 0
    else
      let applied := fullKelly * fraction
      min applied maxPositionPct

/-- Mirrors `KellyCalculator.get_position_size`: dollar amount divided by
price, then `shares.quantize(Decimal("1"))`, i.e. rounding to the nearest
integer with ties to even. -/
def KellyCalculator.getPositionSize (fraction maxPositionPct : ℚ)
    (bankroll : ℚ) (winRate winLossR : ℚ) (price : ℚ) : ℤ :=
  let kellyPct := KellyCalculator.calculate fraction maxPositionPct winRate winLossR
  if kellyPct ≤ 0 then 0
  else
    let dollarAmount := bankroll * kellyPct
    let shares := dollarAmount / price
    roundHalfEven shares

/-- The applied fraction exactly as the specification words it:
`min(max(0, (p*b - (1-p))/b) * fraction, max_position_pct)`. -/
def kellyAppliedSpec (fraction maxPositionPct : ℚ) (winRate winLossR : ℚ) : ℚ :=
  min (max 0 ((winRate * winLossR - (1 - winRate)) / winLossR) * fraction) maxPositionPct

/-! ## Correlation-aware portfolio cap (src/risk/correlation.py) -/

/-- Mirrors the loop of `PortfolioRisk.can_add_position`: sum of the sizes
(signed, exactly as the code adds `other_size`) of the existing markets,
other than the candidate, whose correlation with the candidate is at least
the threshold. `corr` is the `get_correlation` lookup of the state. -/
def PortfolioRisk.correlatedExposure (correlationThreshold : ℚ)
    (corr : String → String → ℚ) (market : String)
    (existing : List (String × ℚ)) : ℚ :=
  match existing with
  | [] => 0
  | (otherMarket, otherSize) :: rest =>
    let restSum := PortfolioRisk.correlatedExposure correlationThreshold corr market rest
    if otherMarket = market then restSum
    else if correlationThreshold ≤ corr market otherMarket then otherSize + restSum
    else restSum

/-- Mirrors `PortfolioRisk.can_add_position`. -/
def PortfolioRisk.canAddPosition (maxCorrelatedExposure correlationThreshold : ℚ)
    (corr : String → String → ℚ) (market : String) (size : ℚ)
    (existing : List (String × ℚ)) : Bool :=
  let correlatedExposure :=
    PortfolioRisk.correlatedExposure correlationThreshold corr market existing
  decide (correlatedExposure + size ≤ maxCorrelatedExposure)

/-- The check exactly as the specification words it: sum the ABSOLUTE
sizes of the correlated existing markets. -/
def canAddPositionSpecAbs (maxCorrelatedExposure correlationThreshold : ℚ)
    (corr : String → String → ℚ) (market : String) (size : ℚ)
    (existing : List (String × ℚ)) : Bool :=
  let correlated :=
    ((existing.filter (fun e =>
        e.1 ≠ market ∧ correlationThreshold ≤ corr market e.1)).map
      (fun e => |e.2|)).sum
  decide (correlated + size ≤ maxCorrelatedExposure)

/-! ## Volatility tracker (src/strategy/volatility.py) -/

/-- Class constants of `VolatilityTracker`. -/
def VolatilityTracker.volLow : ℚ := 5/100

/-- Threshold between normal and high volatility. -/
def VolatilityTracker.volNormal : ℚ := 15/100

/-- Threshold between high and extreme volatility. -/
def VolatilityTracker.volHigh : ℚ := 30/100

/-- Mirrors `VolatilityTracker.get_multiplier` as a function of the
configuration (`min_samples`, `mult_min`, `mult_max`) and the state (the
number of retained samples and `_realized_vol`). -/
def VolatilityTracker.getMultiplier (minSamples : ℕ) (multMin multMax : ℚ)
    (sampleCount : ℕ) (realizedVol : ℚ) : ℚ :=
  if sampleCount < minSamples then 1
  else
    let vol := realizedVol
    if vol < VolatilityTracker.volLow then multMin
    else if vol < VolatilityTracker.volNormal then
      let r := (vol - VolatilityTracker.volLow) /
        (VolatilityTracker.volNormal - VolatilityTracker.volLow)
      multMin + r * (1 - multMin)
    else if vol < VolatilityTracker.volHigh then
      let r := (vol - VolatilityTracker.volNormal) /
        (VolatilityTracker.volHigh - VolatilityTracker.volNormal)
      1 + r * (1/2)
    else
      let r := min 1 ((vol - VolatilityTracker.volHigh) / (20/100))
      3/2 + r * (multMax - 3/2)

/-! ## Risk manager (src/risk/manager.py) -/

/-- Risk check result status. -/
inductive RiskStatus
  | ok
  | warn
  | stop
deriving DecidableEq, Repr

/-- Result of a risk check (the `details` dict is omitted). -/
structure RiskCheck where
  status : RiskStatus
  reason : String := ""
deriving DecidableEq, Repr

/-- A logged risk event for later analysis (the `details` dict is
omitted; `status` keeps the enum value rather than its string). -/
structure RiskEvent where
  timestamp : ℚ
  status : RiskStatus
  reason : String
  enforced : Bool
deriving DecidableEq, Repr

/-- State of a `RiskManager`: configuration fields and mutable state.
Error records keep only their timestamps. -/
structure RMState where
  maxDailyLoss : ℚ
  maxTotalExposure : ℚ
  errorCooldown : ℚ
  maxErrorsPerMinute : ℕ
  enforce : Bool
  killed : Bool
  killReason : String
  errors : List ℚ
  cooldownUntil : ℚ
  dailyPnl : ℚ
  volAdjustedPosition : ℚ
  riskEvents : List RiskEvent

/-- Number of recorded errors in the last 60 seconds, as in
`_check_error_rate` and `get_status`. -/
def RMState.recentErrors (s : RMState) (now : ℚ) : ℕ :=
  (s.errors.filter (fun ts => decide (now - 60 < ts))).length

/-- Mirrors `RiskManager._check_error_rate`, which may set the cooldown. -/
def RiskManager.checkErrorRate (s : RMState) (now : ℚ) : RiskCheck × RMState :=
  if s.maxErrorsPerMinute ≤ s.recentErrors now then
    ({ status := RiskStatus.stop, reason := "Too many errors" },
      { s with cooldownUntil := now + s.errorCooldown })
  else ({ status := RiskStatus.ok }, s)

/-- Mirrors `RiskManager._check_daily_pnl`, which sets the kill switch in
enforce mode when the daily loss limit is exceeded. The warning threshold
is 80 percent of the limit. -/
def RiskManager.checkDailyPnl (s : RMState) : RiskCheck × RMState :=
  if s.dailyPnl < -s.maxDailyLoss then
    let s1 := if s.enforce then
        { s with killed := true, killReason := "Daily loss limit exceeded" }
      else s
    ({ status := RiskStatus.stop, reason := "Daily loss limit exceeded" }, s1)
  else if s.dailyPnl < -s.maxDailyLoss * (8/10) then
    ({ status := RiskStatus.warn, reason := "Approaching daily loss limit" }, s)
  else ({ status := RiskStatus.ok }, s)

/-- Mirrors the loop of `RiskManager._check_positions`; `pos` is the
`get_position` lookup and `total` the accumulated exposure. -/
def RiskManager.checkPositionsAux (s : RMState) (pos : String → ℚ) :
    List String → ℚ → RiskCheck
  | [], total =>
    if s.maxTotalExposure < total then
      { status := RiskStatus.warn, reason := "Total exposure exceeds limit" }
    else { status := RiskStatus.ok }
  | tokenId :: rest, total =>
    let absPosition := |pos tokenId|
    if s.volAdjustedPosition < absPosition then
      { status := RiskStatus.warn, reason := "Position limit exceeded" }
    else RiskManager.checkPositionsAux s pos rest (total + absPosition)

/-- Mirrors `RiskManager._check_positions`. -/
def RiskManager.checkPositions (s : RMState) (tokenIds : List String)
    (pos : String → ℚ) : RiskCheck :=
  RiskManager.checkPositionsAux s pos tokenIds 0

/-- Mirrors `RiskManager._run_checks`: cooldown, error rate, daily P&L,
positions, then the worst of the P&L and position checks with the P&L
warning preferred. -/
def RiskManager.runChecks (s : RMState) (now : ℚ) (tokenIds : List String)
    (pos : String → ℚ) : RiskCheck × RMState :=
  if now < s.cooldownUntil then
    ({ status := RiskStatus.stop, reason := "In cooldown" }, s)
  else
    let ec := RiskManager.checkErrorRate s now
    if ec.1.status = RiskStatus.stop then ec
    else
      let pc := RiskManager.checkDailyPnl ec.2
      if pc.1.status = RiskStatus.stop then pc
      else
        let posCheck :=
          if tokenIds.isEmpty then ({ status := RiskStatus.ok } : RiskCheck)
          else RiskManager.checkPositions pc.2 tokenIds pos
        if posCheck.status = RiskStatus.stop then (posCheck, pc.2)
        else if pc.1.status = RiskStatus.warn then (pc.1, pc.2)
        else if posCheck.status = RiskStatus.warn then (posCheck, pc.2)
        else ({ status := RiskStatus.ok }, pc.2)

/-- Mirrors `RiskManager._log_risk_event`. -/
def RiskManager.logRiskEvent (s : RMState) (now : ℚ) (c : RiskCheck)
    (enforced : Bool) : RMState :=
  { s with riskEvents := s.riskEvents ++
      [{ timestamp := now, status := c.status, reason := c.reason, enforced := enforced }] }

/-- Mirrors `RiskManager.check`: the kill switch is always honoured; in
data-gather mode a failing check is logged with `enforced = false` and OK
is returned; in enforce mode it is logged with `enforced = true` and
returned. -/
def RiskManager.check (s : RMState) (now : ℚ) (tokenIds : List String)
    (pos : String → ℚ) : RiskCheck × RMState :=
  if s.killed then
    ({ status := RiskStatus.stop, reason := "Kill switch" }, s)
  else
    let rc := RiskManager.runChecks s now tokenIds pos
    if rc.1.status ≠ RiskStatus.ok ∧ ¬ s.enforce then
      ({ status := RiskStatus.ok }, RiskManager.logRiskEvent rc.2 now rc.1 false)
    else if rc.1.status ≠ RiskStatus.ok then
      (rc.1, RiskManager.logRiskEvent rc.2 now rc.1 true)
    else rc

/-! ## Order simulator (src/simulator.py) -/

/-- Order side. -/
inductive OrderSide
  | buy
  | sell
deriving DecidableEq, Repr

/-- Order status values from the API. -/
inductive SimOrderStatus
  | live
  | matched
  | cancelled
  | expired
deriving DecidableEq, Repr

/-- An order as kept by the simulator (src/models.py `Order`, the fields
the simulator touches). -/
structure SimOrder where
  id : String
  tokenId : String
  side : OrderSide
  price : ℚ
  size : ℚ
  filled : ℚ
  status : SimOrderStatus
deriving DecidableEq, Repr

/-- A trade record as created by `check_fills` (src/models.py `Trade`;
the generated trade id is omitted). -/
structure SimTrade where
  orderId : String
  tokenId : String
  side : OrderSide
  price : ℚ
  size : ℚ
  fee : ℚ
deriving DecidableEq, Repr

/-- State of `OrderSimulator`. The Python dict `self.orders` keyed by
order id is modelled as the list of its values (unique ids); the position
cache `self._positions` as a total function defaulting to 0. -/
structure SimState where
  orders : List SimOrder
  trades : List SimTrade
  positions : String → ℚ

/-- Mirrors `Order.is_live`. -/
def SimOrder.isLive (o : SimOrder) : Bool :=
  o.status = SimOrderStatus.live

/-- Cancel the dict entry with the given id: the first (and in a dict the
only) order whose id matches gets status CANCELLED. -/
def cancelFirst : List SimOrder → String → List SimOrder
  | [], _ => []
  | o :: rest, orderId =>
    if o.id = orderId then { o with status := SimOrderStatus.cancelled } :: rest
    else o :: cancelFirst rest orderId

/-- Mirrors `OrderSimulator.cancel_order`. -/
def OrderSimulator.cancelOrder (s : SimState) (orderId : String) : Bool × SimState :=
  match s.orders.find? (fun o => o.id = orderId) with
  | Option.none => (false, s)
  | Option.some o =>
    if o.isLive then (true, { s with orders := cancelFirst s.orders orderId })
    else (false, s)

/-- The crossing test of `check_fills`: a BUY at or above the ask, or a
SELL at or below the bid. -/
def shouldFill (o : SimOrder) (bid ask : ℚ) : Bool :=
  if o.side = OrderSide.buy ∧ ask ≤ o.price then true
  else if o.side = OrderSide.sell ∧ o.price ≤ bid then true
  else false

/-- Mirrors `OrderSimulator._update_position`. -/
def updatePosition (pos : String → ℚ) (tokenId : String) (side : OrderSide)
    (size : ℚ) : String → ℚ :=
  fun t =>
    if t = tokenId then
      if side = OrderSide.buy then pos t + size else pos t - size
    else pos t

/-- An order is picked up by `check_fills(tokenId, bid, ask)` iff it is
live, on the right token, and crosses the touch. -/
def fillPred (tokenId : String) (bid ask : ℚ) (o : SimOrder) : Bool :=
  o.isLive ∧ o.tokenId = tokenId ∧ shouldFill o bid ask

/-- The trade record built for a filled order: full size at the order
price, fee = price * size * fee_rate. -/
def mkTrade (o : SimOrder) (feeRate : ℚ) : SimTrade :=
  { orderId := o.id, tokenId := o.tokenId, side := o.side, price := o.price,
    size := o.size, fee := o.price * o.size * feeRate }

/-- The loop body of `OrderSimulator.check_fills`, walking the order list
and threading the position cache; returns the rewritten orders, the new
trades in order, the final positions and the fill count. -/
def checkFillsList (tokenId : String) (bid ask feeRate : ℚ) :
    List SimOrder → (String → ℚ) →
      List SimOrder × List SimTrade × (String → ℚ) × ℕ
  | [], pos => ([], [], pos, 0)
  | o :: rest, pos =>
    if fillPred tokenId bid ask o then
      let pos1 := updatePosition pos tokenId o.side o.size
      let r := checkFillsList tokenId bid ask feeRate rest pos1
      ({ o with filled := o.size, status := SimOrderStatus.matched } :: r.1,
        mkTrade o feeRate :: r.2.1, r.2.2.1, r.2.2.2 + 1)
    else
      let r := checkFillsList tokenId bid ask feeRate rest pos
      (o :: r.1, r.2.1, r.2.2.1, r.2.2.2)

/-- Mirrors `OrderSimulator.check_fills`: returns the number of orders
filled and the new state. -/
def OrderSimulator.checkFills (s : SimState) (tokenId : String)
    (bid ask feeRate : ℚ) : ℕ × SimState :=
  let r := checkFillsList tokenId bid ask feeRate s.orders s.positions
  (r.2.2.2, { orders := r.1, trades := s.trades ++ r.2.1, positions := r.2.2.1 })

/-! ## Helper lemmas -/

theorem ratTrunc_intCast (k : ℤ) : ratTrunc (k : ℚ) = k := by
  unfold ratTrunc
  split_ifs with h
  · exact Int.floor_intCast k
  · rw [show (-(k : ℚ)) = ((-k : ℤ) : ℚ) by push_cast; ring, Int.floor_intCast]
    ring

theorem ratTrunc_of_nonneg {q : ℚ} (h : 0 ≤ q) : ratTrunc q = ⌊q⌋ := by
  unfold ratTrunc
  exact if_pos h

theorem roundHalfEven_le (q : ℚ) : (roundHalfEven q : ℚ) ≤ q + 1/2 := by
  have h1 : (⌊q⌋ : ℚ) ≤ q := Int.floor_le q
  simp only [roundHalfEven]
  split_ifs <;> push_cast <;> linarith

theorem roundHalfEven_zero : roundHalfEven 0 = 0 := by
  simp only [roundHalfEven]
  norm_num

/-! ## C10: order-book midpoint and spread totality -/

/-- C10: for every order book, `midpoint` and `spread` are total and
return none whenever bids or asks is empty; because the best prices are
tested for truthiness, they also return none when a best price equals 0;
and when both best prices exist and are nonzero they return the midpoint
and the spread. -/
theorem orderBook_midpoint_spread_total (ob : OrderBook) :
    ((ob.bids = [] ∨ ob.asks = []) →
      ob.midpoint = Option.none ∧ ob.spread = Option.none) ∧
    ((ob.bestBid = Option.some 0 ∨ ob.bestAsk = Option.some 0) →
      ob.midpoint = Option.none ∧ ob.spread = Option.none) ∧
    (∀ b a : ℚ, ob.bestBid = Option.some b → ob.bestAsk = Option.some a →
      b ≠ 0 → a ≠ 0 →
      ob.midpoint = Option.some ((b + a) / 2) ∧
      ob.spread = Option.some (a - b)) := by
  obtain ⟨bids, asks⟩ := ob
  cases bids with
  | nil =>
    cases asks <;>
      simp [OrderBook.midpoint, OrderBook.spread, OrderBook.bestBid,
        OrderBook.bestAsk, truthy]
  | cons hb tb =>
    cases asks with
    | nil =>
      simp [OrderBook.midpoint, OrderBook.spread, OrderBook.bestBid,
        OrderBook.bestAsk, truthy]
    | cons ha ta =>
      by_cases hbz : hb.price = 0 <;> by_cases haz : ha.price = 0 <;>
        simp [OrderBook.midpoint, OrderBook.spread, OrderBook.bestBid,
          OrderBook.bestAsk, truthy, hbz, haz]

/-- C10 witness: a concrete book with best bid 2/5 and best ask 3/5. -/
theorem orderBook_midpoint_spread_total_witness :
    OrderBook.midpoint ⟨[⟨2/5, 1⟩], [⟨3/5, 1⟩]⟩ = Option.some (1/2) ∧
    OrderBook.spread ⟨[⟨2/5, 1⟩], [⟨3/5, 1⟩]⟩ = Option.some (1/5) := by
  have h := (orderBook_midpoint_spread_total ⟨[⟨2/5, 1⟩], [⟨3/5, 1⟩]⟩).2.2
    (2/5) (3/5) rfl rfl (by norm_num) (by norm_num)
  refine ⟨?_, ?_⟩
  · rw [h.1]; norm_num
  · rw [h.2]; norm_num

/-! ## C7: sequence-gap detection -/

/-- C7: check_sequence accepts an absent sequence and a sequence with no
seen predecessor (sentinel -1); otherwise it returns false exactly when
the sequence is not last+1, increments the gap counter exactly on that
mismatch, always adopts a present sequence as the new last value, and
leaves other tokens untouched. -/
theorem dataStore_checkSequence_spec (s : DataStore) (tokenId : String)
    (seq : Option ℤ) :
    (seq = Option.none → s.checkSequence tokenId seq = (true, s)) ∧
    (∀ q : ℤ, seq = Option.some q →
      ((s.checkSequence tokenId seq).1 = false ↔
        s.seqMap tokenId ≠ -1 ∧ q ≠ s.seqMap tokenId + 1) ∧
      (s.checkSequence tokenId seq).2.seqMap tokenId = q ∧
      (s.checkSequence tokenId seq).2.gapCount tokenId =
        s.gapCount tokenId +
          (if (s.checkSequence tokenId seq).1 then 0 else 1) ∧
      (∀ t : String, t ≠ tokenId →
        (s.checkSequence tokenId seq).2.seqMap t = s.seqMap t ∧
        (s.checkSequence tokenId seq).2.gapCount t = s.gapCount t)) := by
  constructor
  · rintro rfl
    rfl
  · rintro q rfl
    by_cases h1 : s.seqMap tokenId = -1
    · exact ⟨by simp [DataStore.checkSequence, h1],
        by simp [DataStore.checkSequence, h1],
        by simp [DataStore.checkSequence, h1],
        fun t ht => by simp [DataStore.checkSequence, h1, ht]⟩
    · by_cases h2 : q = s.seqMap tokenId + 1
      · exact ⟨by simp [DataStore.checkSequence, h1, h2],
          by simp [DataStore.checkSequence, h1, h2],
          by simp [DataStore.checkSequence, h1, h2],
          fun t ht => by simp [DataStore.checkSequence, h1, h2, ht]⟩
      · exact ⟨by simp [DataStore.checkSequence, h1, h2],
          by simp [DataStore.checkSequence, h1, h2],
          by simp [DataStore.checkSequence, h1, h2],
          fun t ht => by simp [DataStore.checkSequence, h1, h2, ht]⟩

/-- C7 witness: a store whose last sequence for token a is 5; sequence 7
is a mismatch, so false is returned, the gap counter increments and 7 is
adopted, while token b is untouched. -/
theorem dataStore_checkSequence_spec_witness :
    (DataStore.checkSequence ⟨fun _ => 5, fun _ => 0⟩ "a" (Option.some 7)).1 = false ∧
    (DataStore.checkSequence ⟨fun _ => 5, fun _ => 0⟩ "a" (Option.some 7)).2.seqMap "a" = 7 ∧
    (DataStore.checkSequence ⟨fun _ => 5, fun _ => 0⟩ "a" (Option.some 7)).2.gapCount "a" = 1 ∧
    (DataStore.checkSequence ⟨fun _ => 5, fun _ => 0⟩ "a" (Option.some 7)).2.seqMap "b" = 5 := by
  have h := dataStore_checkSequence_spec ⟨fun _ => 5, fun _ => 0⟩ "a" (Option.some 7)
  have h2 := h.2 7 rfl
  have hfalse : (DataStore.checkSequence ⟨fun _ => 5, fun _ => 0⟩ "a" (Option.some 7)).1 = false := by
    rw [h2.1]
    norm_num
  refine ⟨hfalse, h2.2.1, ?_, (h2.2.2.2 "b" (by decide)).1⟩
  rw [h2.2.2.1, hfalse]
  rfl

/-! ## C4: arbitrage pair classification -/

/-- C4: for prices yes, no with deviation yes+no-1, deviation_bps the
floor of its absolute value in basis points, and net_bps the deviation
minus the round-trip fee 2*fee_rate*10000 (assumed integral, hypothesis
hfee), check_pair classifies SELL_BOTH exactly when deviation is positive
and net_bps reaches min_profit_bps, with profit net_bps and confidence
min(1, net_bps/100); BUY_BOTH symmetrically for negative deviation;
otherwise SKEW with gross profit deviation_bps and confidence 1/2 when
deviation_bps is at least 10; else NONE with profit 0. -/
theorem arbitrage_checkPair_classification
    (feeRate : ℚ) (minProfitBps : ℤ) (yesPrice noPrice : ℚ) (k : ℤ)
    (hfee : feeRate * 2 * 10000 = (k : ℚ)) :
    ((ArbitrageDetector.checkPair feeRate minProfitBps yesPrice noPrice).type =
        ArbitrageType.sellBoth ↔
      0 < yesPrice + noPrice - 1 ∧
        minProfitBps ≤ ⌊|yesPrice + noPrice - 1| * 10000⌋ - k) ∧
    ((ArbitrageDetector.checkPair feeRate minProfitBps yesPrice noPrice).type =
        ArbitrageType.buyBoth ↔
      yesPrice + noPrice - 1 < 0 ∧
        minProfitBps ≤ ⌊|yesPrice + noPrice - 1| * 10000⌋ - k) ∧
    ((ArbitrageDetector.checkPair feeRate minProfitBps yesPrice noPrice).type =
        ArbitrageType.sellBoth ∨
      (ArbitrageDetector.checkPair feeRate minProfitBps yesPrice noPrice).type =
        ArbitrageType.buyBoth →
      (ArbitrageDetector.checkPair feeRate minProfitBps yesPrice noPrice).profitBps =
        ⌊|yesPrice + noPrice - 1| * 10000⌋ - k ∧
      (ArbitrageDetector.checkPair feeRate minProfitBps yesPrice noPrice).confidence =
        min 1 (((⌊|yesPrice + noPrice - 1| * 10000⌋ - k : ℤ) : ℚ) / 100)) ∧
    ((ArbitrageDetector.checkPair feeRate minProfitBps yesPrice noPrice).type =
        ArbitrageType.skewQuotes ↔
      ¬(0 < yesPrice + noPrice - 1 ∧
          minProfitBps ≤ ⌊|yesPrice + noPrice - 1| * 10000⌋ - k) ∧
      ¬(yesPrice + noPrice - 1 < 0 ∧
          minProfitBps ≤ ⌊|yesPrice + noPrice - 1| * 10000⌋ - k) ∧
      10 ≤ ⌊|yesPrice + noPrice - 1| * 10000⌋) ∧
    ((ArbitrageDetector.checkPair feeRate minProfitBps yesPrice noPrice).type =
        ArbitrageType.skewQuotes →
      (ArbitrageDetector.checkPair feeRate minProfitBps yesPrice noPrice).profitBps =
        ⌊|yesPrice + noPrice - 1| * 10000⌋ ∧
      (ArbitrageDetector.checkPair feeRate minProfitBps yesPrice noPrice).confidence =
        1/2) ∧
    ((ArbitrageDetector.checkPair feeRate minProfitBps yesPrice noPrice).type =
        ArbitrageType.none →
      (ArbitrageDetector.checkPair feeRate minProfitBps yesPrice noPrice).profitBps = 0 ∧
      (ArbitrageDetector.checkPair feeRate minProfitBps yesPrice noPrice).confidence = 0) := by
  have hdev : (0:ℚ) ≤ |yesPrice + noPrice - 1| * 10000 := by positivity
  have h1 : ratTrunc (|yesPrice + noPrice - 1| * 10000) =
      ⌊|yesPrice + noPrice - 1| * 10000⌋ := ratTrunc_of_nonneg hdev
  have h2 : ratTrunc (feeRate * 2 * 10000) = k := by
    rw [hfee]; exact ratTrunc_intCast k
  have hnn : 0 ≤ ⌊|yesPrice + noPrice - 1| * 10000⌋ := Int.floor_nonneg.mpr hdev
  simp only [ArbitrageDetector.checkPair, h1, h2, skewThresholdBps, abs_of_nonneg hnn]
  split_ifs with hA hB hC
  · refine ⟨by simp [hA], ?_, fun _ => ⟨rfl, rfl⟩, ?_, by simp, by simp⟩
    · constructor
      · intro h; simp at h
      · rintro ⟨h1, _⟩; exfalso; linarith [hA.1]
    · constructor
      · intro h; simp at h
      · rintro ⟨hna, _, _⟩; exact absurd hA hna
  · refine ⟨?_, by simp [hB], fun _ => ⟨rfl, rfl⟩, ?_, by simp, by simp⟩
    · constructor
      · intro h; simp at h
      · rintro ⟨h1, _⟩; exfalso; linarith [hB.1]
    · constructor
      · intro h; simp at h
      · rintro ⟨_, hnb, _⟩; exact absurd hB hnb
  · refine ⟨?_, ?_, by simp, ?_, fun _ => ⟨rfl, rfl⟩, by simp⟩
    · constructor
      · intro h; simp at h
      · intro h; exact absurd h hA
    · constructor
      · intro h; simp at h
      · intro h; exact absurd h hB
    · exact ⟨fun _ => ⟨hA, hB, hC⟩, fun _ => rfl⟩
  · refine ⟨?_, ?_, by simp, ?_, by simp, fun _ => ⟨rfl, rfl⟩⟩
    · constructor
      · intro h; simp at h
      · intro h; exact absurd h hA
    · constructor
      · intro h; simp at h
      · intro h; exact absurd h hB
    · constructor
      · intro h; simp at h
      · rintro ⟨_, _, h10⟩; exact absurd h10 hC

/-- C4 witness: yes 0.505, no 0.500 at fee_rate 0.001 and
min_profit_bps 20 yield SELL_BOTH with profit 30 bps and confidence 0.3. -/
theorem arbitrage_checkPair_example_witness :
    (ArbitrageDetector.checkPair (1/1000) 20 (505/1000) (500/1000)).type =
      ArbitrageType.sellBoth ∧
    (ArbitrageDetector.checkPair (1/1000) 20 (505/1000) (500/1000)).profitBps = 30 ∧
    (ArbitrageDetector.checkPair (1/1000) 20 (505/1000) (500/1000)).confidence = 3/10 := by
  have h := arbitrage_checkPair_classification (1/1000) 20 (505/1000) (500/1000) 20
    (by norm_num)
  have hdb : ⌊|(505/1000 : ℚ) + 500/1000 - 1| * 10000⌋ = 50 := by
    rw [show |(505/1000 : ℚ) + 500/1000 - 1| * 10000 = ((50 : ℤ) : ℚ) by
      rw [show (505/1000 : ℚ) + 500/1000 - 1 = 5/1000 by norm_num,
        abs_of_nonneg (by norm_num : (0:ℚ) ≤ 5/1000)]
      norm_num]
    exact Int.floor_intCast 50
  have htype : (ArbitrageDetector.checkPair (1/1000) 20 (505/1000) (500/1000)).type =
      ArbitrageType.sellBoth := by
    rw [h.1]
    refine ⟨by norm_num, ?_⟩
    rw [hdb]
    norm_num
  have hpc := h.2.2.1 (Or.inl htype)
  refine ⟨htype, ?_, ?_⟩
  · rw [hpc.1, hdb]
    norm_num
  · rw [hpc.2, hdb]
    norm_num

/-! ## C8: volatility multiplier bounds -/

/-- C8 counterexample: with mult_max = 1.2 (less than the hard-coded 1.5
anchor of the interpolation) and realized vol 0.25 with enough samples,
the multiplier is 4/3, outside [mult_min, mult_max]; so the claimed
invariant fails for this configuration of mult_min and mult_max. -/
theorem volatility_getMultiplier_counterexample :
    VolatilityTracker.getMultiplier 10 (7/10) (6/5) 10 (1/4) = 4/3 ∧
    ¬(VolatilityTracker.getMultiplier 10 (7/10) (6/5) 10 (1/4) ≤ 6/5) := by
  have h : VolatilityTracker.getMultiplier 10 (7/10) (6/5) 10 (1/4) = 4/3 := by
    simp only [VolatilityTracker.getMultiplier, VolatilityTracker.volLow,
      VolatilityTracker.volNormal, VolatilityTracker.volHigh]
    norm_num
  exact ⟨h, by rw [h]; norm_num⟩

/-- C8 amended: the multiplier lies in [mult_min, mult_max] whenever the
sample count reaches min_samples, PROVIDED the configuration satisfies
mult_min ≤ 1 and 1.5 ≤ mult_max (as the defaults 0.5 and 3.0 do; the
piecewise map is anchored at 1.0 and 1.5, so other configurations can
escape the interval); with fewer samples it is exactly 1. This holds for
every realized-vol value, hence for every reachable state. -/
theorem volatility_getMultiplier_bounds (minSamples : ℕ) (multMin multMax : ℚ)
    (sampleCount : ℕ) (realizedVol : ℚ)
    (hmin : multMin ≤ 1) (hmax : 3/2 ≤ multMax) :
    (minSamples ≤ sampleCount →
      multMin ≤ VolatilityTracker.getMultiplier minSamples multMin multMax
          sampleCount realizedVol ∧
      VolatilityTracker.getMultiplier minSamples multMin multMax
          sampleCount realizedVol ≤ multMax) ∧
    (sampleCount < minSamples →
      VolatilityTracker.getMultiplier minSamples multMin multMax
          sampleCount realizedVol = 1) := by
  constructor
  · intro hcount
    have hnlt : ¬ sampleCount < minSamples := not_lt.mpr hcount
    simp only [VolatilityTracker.getMultiplier, VolatilityTracker.volLow,
      VolatilityTracker.volNormal, VolatilityTracker.volHigh, if_neg hnlt]
    split_ifs with h1 h2 h3
    · exact ⟨le_refl _, by linarith⟩
    · have hq : (realizedVol - 5/100) / (15/100 - 5/100) =
          10 * (realizedVol - 5/100) := by
        rw [show (15/100 - 5/100 : ℚ) = 1/10 by norm_num]
        ring
      rw [hq]
      have hr0 : 0 ≤ 10 * (realizedVol - 5/100) := by linarith
      have hr1 : 10 * (realizedVol - 5/100) < 1 := by linarith
      constructor
      · nlinarith
      · nlinarith
    · have hq : (realizedVol - 15/100) / (30/100 - 15/100) =
          (20/3) * (realizedVol - 15/100) := by
        rw [show (30/100 - 15/100 : ℚ) = 3/20 by norm_num]
        ring
      rw [hq]
      have hr0 : 0 ≤ (20/3 : ℚ) * (realizedVol - 15/100) := by linarith
      have hr1 : (20/3 : ℚ) * (realizedVol - 15/100) < 1 := by linarith
      constructor
      · linarith
      · linarith
    · have hq : (realizedVol - 30/100) / (20/100) =
          5 * (realizedVol - 30/100) := by
        rw [show (20/100 : ℚ) = 1/5 by norm_num]
        ring
      rw [hq]
      have hr0 : 0 ≤ min 1 (5 * (realizedVol - 30/100)) := by
        apply le_min
        · norm_num
        · linarith
      have hr1 : min 1 (5 * (realizedVol - 30/100)) ≤ 1 := min_le_left _ _
      constructor
      · nlinarith
      · nlinarith
  · intro hcount
    simp only [VolatilityTracker.getMultiplier, if_pos hcount]

/-- C8 witness: default configuration mult_min = 0.5, mult_max = 3.0 with
11 samples of min 10 and realized vol 0.25 stays within the interval, and
with 9 samples the multiplier is exactly 1. -/
theorem volatility_getMultiplier_bounds_witness :
    ((1:ℚ)/2 ≤ VolatilityTracker.getMultiplier 10 (1/2) 3 11 (1/4) ∧
      VolatilityTracker.getMultiplier 10 (1/2) 3 11 (1/4) ≤ 3) ∧
    VolatilityTracker.getMultiplier 10 (1/2) 3 9 (1/4) = 1 := by
  have h1 := volatility_getMultiplier_bounds 10 (1/2) 3 11 (1/4)
    (by norm_num) (by norm_num)
  have h2 := volatility_getMultiplier_bounds 10 (1/2) 3 9 (1/4)
    (by norm_num) (by norm_num)
  exact ⟨h1.1 (by norm_num), h2.2 (by norm_num)⟩

/-! ## C5: Kelly position sizing -/

theorem kelly_calculate_eq_appliedSpec (fraction maxPositionPct winRate winLossR : ℚ)
    (hp0 : 0 < winRate) (hp1 : winRate < 1) (hb : 0 < winLossR)
    (hmax : 0 ≤ maxPositionPct) :
    KellyCalculator.calculate fraction maxPositionPct winRate winLossR =
      kellyAppliedSpec fraction maxPositionPct winRate winLossR := by
  simp only [KellyCalculator.calculate, kellyAppliedSpec]
  rw [if_neg (by push_neg; constructor <;> linarith),
    if_neg (not_le.mpr hb)]
  by_cases hfull : (winRate * winLossR - (1 - winRate)) / winLossR ≤ 0
  · rw [if_pos hfull, max_eq_left hfull, zero_mul]
    exact (min_eq_left hmax).symm
  · rw [if_neg hfull, max_eq_right (le_of_lt (not_le.mp hfull))]

/-- C5 counterexample: with fraction 1/4, max_position_pct 1/10, bankroll
100, win_rate 3/4, win_loss_ratio 1 and price 3/5 the applied fraction is
1/10, the exact quotient is 100*(1/10)/(3/5) = 50/3, and the code returns
17 (rounding to nearest), while rounding DOWN gives 16; so the share count
exceeds the exact quotient and the claim as stated is false. -/
theorem kelly_getPositionSize_counterexample :
    KellyCalculator.getPositionSize (1/4) (1/10) 100 (3/4) 1 (3/5) = 17 ∧
    ⌊(100 * kellyAppliedSpec (1/4) (1/10) (3/4) 1 / (3/5) : ℚ)⌋ = 16 ∧
    ¬((KellyCalculator.getPositionSize (1/4) (1/10) 100 (3/4) 1 (3/5) : ℚ) ≤
        100 * kellyAppliedSpec (1/4) (1/10) (3/4) 1 / (3/5)) := by
  have happ : kellyAppliedSpec (1/4) (1/10) (3/4) 1 = 1/10 := by
    simp only [kellyAppliedSpec]
    norm_num
  have hcalc : KellyCalculator.calculate (1/4) (1/10) (3/4) 1 = 1/10 := by
    rw [kelly_calculate_eq_appliedSpec (1/4) (1/10) (3/4) 1
      (by norm_num) (by norm_num) (by norm_num) (by norm_num), happ]
  have hq : (100 * (1/10) / (3/5) : ℚ) = 50/3 := by norm_num
  have hfloor : ⌊(50/3 : ℚ)⌋ = 16 := by
    rw [Int.floor_eq_iff]
    norm_num
  have hsize : KellyCalculator.getPositionSize (1/4) (1/10) 100 (3/4) 1 (3/5) = 17 := by
    simp only [KellyCalculator.getPositionSize, hcalc]
    rw [if_neg (by norm_num), hq]
    simp only [roundHalfEven, hfloor]
    rw [if_neg (by push_cast; norm_num), if_pos (by push_cast; norm_num)]
    norm_num
  refine ⟨hsize, by rw [happ, hq]; exact hfloor, ?_⟩
  rw [hsize, happ, hq]
  norm_num

/-- C5 amended: for win_rate in (0,1), positive win_loss_ratio,
nonnegative fraction and cap, and positive price, get_position_size
returns bankroll * applied / price rounded to the NEAREST integer with
ties to even (Decimal.quantize default), where applied =
min(max(0, (p*b - (1-p))/b) * fraction, max_position_pct); the share
count can exceed the exact quotient, but never by more than 1/2. -/
theorem kelly_getPositionSize_rounds_nearest
    (fraction maxPositionPct bankroll winRate winLossR price : ℚ)
    (hp0 : 0 < winRate) (hp1 : winRate < 1) (hb : 0 < winLossR)
    (hfrac : 0 ≤ fraction) (hmax : 0 ≤ maxPositionPct) (hprice : 0 < price) :
    KellyCalculator.getPositionSize fraction maxPositionPct bankroll winRate
        winLossR price =
      roundHalfEven (bankroll *
        kellyAppliedSpec fraction maxPositionPct winRate winLossR / price) ∧
    ((KellyCalculator.getPositionSize fraction maxPositionPct bankroll winRate
        winLossR price : ℚ) ≤
      bankroll * kellyAppliedSpec fraction maxPositionPct winRate winLossR / price
        + 1/2) := by
  have heq := kelly_calculate_eq_appliedSpec fraction maxPositionPct winRate
    winLossR hp0 hp1 hb hmax
  have hnn : 0 ≤ kellyAppliedSpec fraction maxPositionPct winRate winLossR := by
    simp only [kellyAppliedSpec]
    apply le_min _ hmax
    apply mul_nonneg (le_max_left 0 _) hfrac
  have hmain : KellyCalculator.getPositionSize fraction maxPositionPct bankroll
      winRate winLossR price =
      roundHalfEven (bankroll *
        kellyAppliedSpec fraction maxPositionPct winRate winLossR / price) := by
    simp only [KellyCalculator.getPositionSize, heq]
    by_cases hz : kellyAppliedSpec fraction maxPositionPct winRate winLossR ≤ 0
    · have h0 : kellyAppliedSpec fraction maxPositionPct winRate winLossR = 0 :=
        le_antisymm hz hnn
      rw [if_pos hz, h0, mul_zero, zero_div, roundHalfEven_zero]
    · rw [if_neg hz]
  refine ⟨hmain, ?_⟩
  rw [hmain]
  exact roundHalfEven_le _

/-- C5 witness for the amended theorem: bankroll 100, win_rate 3/5,
win_loss_ratio 2, fraction 1/4, cap 1/10, price 1/2: applied is capped at
1/10, the quotient is 20 and exactly 20 shares are returned. -/
theorem kelly_getPositionSize_rounds_nearest_witness :
    KellyCalculator.getPositionSize (1/4) (1/10) 100 (3/5) 2 (1/2) =
      roundHalfEven (100 * kellyAppliedSpec (1/4) (1/10) (3/5) 2 / (1/2)) ∧
    ((KellyCalculator.getPositionSize (1/4) (1/10) 100 (3/5) 2 (1/2) : ℚ) ≤
      100 * kellyAppliedSpec (1/4) (1/10) (3/5) 2 / (1/2) + 1/2) :=
  kelly_getPositionSize_rounds_nearest (1/4) (1/10) 100 (3/5) 2 (1/2)
    (by norm_num) (by norm_num) (by norm_num) (by norm_num) (by norm_num)
    (by norm_num)

/-! ## C6: correlation-aware position cap -/

theorem correlatedExposure_eq_filter_sum (correlationThreshold : ℚ)
    (corr : String → String → ℚ) (market : String)
    (existing : List (String × ℚ)) :
    PortfolioRisk.correlatedExposure correlationThreshold corr market existing =
      ((existing.filter (fun e =>
          e.1 ≠ market ∧ correlationThreshold ≤ corr market e.1)).map
        Prod.snd).sum := by
  induction existing with
  | nil => rfl
  | cons e rest ih =>
    obtain ⟨otherMarket, otherSize⟩ := e
    simp only [PortfolioRisk.correlatedExposure]
    by_cases h1 : otherMarket = market
    · rw [if_pos h1, ih]
      rw [List.filter_cons_of_neg (by simp [h1])]
    · rw [if_neg h1]
      by_cases h2 : correlationThreshold ≤ corr market otherMarket
      · rw [if_pos h2, ih, List.filter_cons_of_pos (by simp [h1, h2])]
        simp
      · rw [if_neg h2, ih, List.filter_cons_of_neg (by simp [h1, h2])]

/-- C6 counterexample: with correlation 1 everywhere, threshold 1/2, cap
500, an existing SHORT position of -100 in market b and a candidate size
of 550 in market a, the code sums the signed size (-100) and allows the
position (450 <= 500), while the claimed absolute-size rule adds 100 and
would reject it (650 > 500). -/
theorem portfolioRisk_canAddPosition_counterexample :
    PortfolioRisk.canAddPosition 500 (1/2) (fun _ _ => 1) "a" 550
      [("b", -100)] = true ∧
    canAddPositionSpecAbs 500 (1/2) (fun _ _ => 1) "a" 550
      [("b", -100)] = false := by
  constructor
  · simp only [PortfolioRisk.canAddPosition, PortfolioRisk.correlatedExposure]
    rw [if_neg (by decide), if_pos (by norm_num)]
    norm_num
  · simp only [canAddPositionSpecAbs]
    rw [List.filter_cons_of_pos (by simp; norm_num)]
    norm_num

/-- C6 amended: can_add_position sums the SIGNED sizes of the existing
markets, other than the candidate, whose correlation with the candidate
reaches the threshold (a short position offsets the correlated exposure
rather than adding to it), and allows the position iff that signed sum
plus the candidate size is at most the cap; when every existing position
is nonnegative this coincides with the absolute-size rule of the claim. -/
theorem portfolioRisk_canAddPosition_signed
    (maxCorrelatedExposure correlationThreshold : ℚ)
    (corr : String → String → ℚ) (market : String) (size : ℚ)
    (existing : List (String × ℚ)) :
    (PortfolioRisk.canAddPosition maxCorrelatedExposure correlationThreshold
        corr market size existing = true ↔
      ((existing.filter (fun e =>
          e.1 ≠ market ∧ correlationThreshold ≤ corr market e.1)).map
        Prod.snd).sum + size ≤ maxCorrelatedExposure) ∧
    ((∀ e ∈ existing, 0 ≤ e.2) →
      PortfolioRisk.canAddPosition maxCorrelatedExposure correlationThreshold
          corr market size existing =
        canAddPositionSpecAbs maxCorrelatedExposure correlationThreshold
          corr market size existing) := by
  constructor
  · simp only [PortfolioRisk.canAddPosition,
      correlatedExposure_eq_filter_sum, decide_eq_true_eq]
  · intro hnn
    simp only [PortfolioRisk.canAddPosition, canAddPositionSpecAbs,
      correlatedExposure_eq_filter_sum]
    congr 2
    congr 1
    exact congrArg List.sum (List.map_congr_left (fun e he =>
      (abs_of_nonneg (hnn e (List.mem_of_mem_filter he))).symm))

/-- C6 witness for the amended theorem, at a concrete long-only
portfolio: one correlated existing long of 100, candidate 150, cap 200:
rejected, and the signed rule agrees with the absolute rule. -/
theorem portfolioRisk_canAddPosition_signed_witness :
    (PortfolioRisk.canAddPosition 200 (1/2) (fun _ _ => 9/10) "a" 150
        [("b", 100)] = true ↔
      (([("b", (100:ℚ))].filter (fun e =>
          e.1 ≠ "a" ∧ (1/2 : ℚ) ≤ (fun _ _ => (9/10 : ℚ)) "a" e.1)).map
        Prod.snd).sum + 150 ≤ 200) ∧
    PortfolioRisk.canAddPosition 200 (1/2) (fun _ _ => 9/10) "a" 150
        [("b", 100)] =
      canAddPositionSpecAbs 200 (1/2) (fun _ _ => 9/10) "a" 150 [("b", 100)] := by
  have h := portfolioRisk_canAddPosition_signed 200 (1/2) (fun _ _ => 9/10)
    "a" 150 [("b", 100)]
  exact ⟨h.1, h.2 (by intro e he; simp at he; rw [he]; norm_num)⟩

/-! ## C1 and C2: risk manager check pipeline -/

theorem checkErrorRate_riskEvents (s : RMState) (now : ℚ) :
    (RiskManager.checkErrorRate s now).2.riskEvents = s.riskEvents := by
  simp only [RiskManager.checkErrorRate]
  split_ifs <;> rfl

theorem checkDailyPnl_riskEvents (s : RMState) :
    (RiskManager.checkDailyPnl s).2.riskEvents = s.riskEvents := by
  simp only [RiskManager.checkDailyPnl]
  split_ifs <;> rfl

theorem runChecks_riskEvents (s : RMState) (now : ℚ) (tokenIds : List String)
    (pos : String → ℚ) :
    (RiskManager.runChecks s now tokenIds pos).2.riskEvents = s.riskEvents := by
  simp only [RiskManager.runChecks]
  split_ifs <;>
    simp [checkErrorRate_riskEvents, checkDailyPnl_riskEvents]

theorem checkPositionsAux_ne_stop (s : RMState) (pos : String → ℚ) :
    ∀ (l : List String) (total : ℚ),
      (RiskManager.checkPositionsAux s pos l total).status ≠ RiskStatus.stop := by
  intro l
  induction l with
  | nil =>
    intro total
    simp only [RiskManager.checkPositionsAux]
    split_ifs <;> simp
  | cons t rest ih =>
    intro total
    simp only [RiskManager.checkPositionsAux]
    split_ifs <;> simp [ih]

/-- C1 counterexample: enforce mode, kill switch clear, no cooldown, no
recent errors, max_daily_loss 50 and daily P&L exactly -50: the claim
says check() must return STOP and set the kill switch, but the code
compares with strict less-than, so it returns WARN and does not kill. -/
theorem riskManager_pnl_boundary_counterexample :
    (RiskManager.check ⟨50, 1000, 60, 5, true, false, "", [], 0, -50, 100, []⟩
        100 [] (fun _ => 0)).1.status = RiskStatus.warn ∧
    (RiskManager.check ⟨50, 1000, 60, 5, true, false, "", [], 0, -50, 100, []⟩
        100 [] (fun _ => 0)).2.killed = false := by
  norm_num [RiskManager.check, RiskManager.runChecks, RiskManager.checkErrorRate,
    RiskManager.checkDailyPnl, RiskManager.checkPositions, RiskManager.logRiskEvent,
    RMState.recentErrors] <;> simp

/-- C1 amended: in enforce mode with the kill switch clear, no active
cooldown and recent errors below the limit, check() returns STOP and sets
the kill switch whenever daily P&L is STRICTLY below -max_daily_loss; at
daily P&L exactly -max_daily_loss (with a positive limit) the comparison
`pnl < -max_daily_loss` fails and the 80-percent warning fires instead,
so the result is WARN and the kill switch stays clear. -/
theorem riskManager_daily_pnl_stop (s : RMState) (now : ℚ)
    (tokenIds : List String) (pos : String → ℚ)
    (henf : s.enforce = true) (hkill : s.killed = false)
    (hcool : s.cooldownUntil ≤ now)
    (herr : s.recentErrors now < s.maxErrorsPerMinute) :
    (s.dailyPnl < -s.maxDailyLoss →
      (RiskManager.check s now tokenIds pos).1.status = RiskStatus.stop ∧
      (RiskManager.check s now tokenIds pos).2.killed = true) ∧
    (s.dailyPnl = -s.maxDailyLoss → 0 < s.maxDailyLoss →
      (RiskManager.check s now tokenIds pos).1.status = RiskStatus.warn ∧
      (RiskManager.check s now tokenIds pos).2.killed = false) := by
  have hcool' : ¬ now < s.cooldownUntil := not_lt.mpr hcool
  have herr' : ¬ s.maxErrorsPerMinute ≤ s.recentErrors now := not_le.mpr herr
  constructor
  · intro hpnl
    simp [RiskManager.check, RiskManager.runChecks, RiskManager.checkErrorRate,
      RiskManager.checkDailyPnl, RiskManager.logRiskEvent, hkill, henf,
      hcool', herr', hpnl]
  · intro hpnl hpos
    have hnstop : ¬ s.dailyPnl < -s.maxDailyLoss := by rw [hpnl]; exact lt_irrefl _
    have hwarn : s.dailyPnl < -(s.maxDailyLoss * (8/10)) := by
      rw [hpnl]; nlinarith
    cases tokenIds with
    | nil =>
      simp [RiskManager.check, RiskManager.runChecks, RiskManager.checkErrorRate,
        RiskManager.checkDailyPnl, RiskManager.checkPositions,
        RiskManager.logRiskEvent, hkill, henf, hcool', herr', hnstop, hwarn]
    | cons t ts =>
      have hpcheck := checkPositionsAux_ne_stop s pos (t :: ts) 0
      simp [RiskManager.check, RiskManager.runChecks, RiskManager.checkErrorRate,
        RiskManager.checkDailyPnl, RiskManager.checkPositions,
        RiskManager.logRiskEvent, hkill, henf, hcool', herr', hnstop, hwarn,
        hpcheck]

/-- C1 witness for the amended theorem: max_daily_loss 50, daily P&L -60
(strictly below the limit), enforce mode: STOP and the kill switch is
set; and the boundary case P&L exactly -50 yields WARN without killing. -/
theorem riskManager_daily_pnl_stop_witness :
    ((RiskManager.check ⟨50, 1000, 60, 5, true, false, "", [], 0, -60, 100, []⟩
        100 [] (fun _ => 0)).1.status = RiskStatus.stop ∧
      (RiskManager.check ⟨50, 1000, 60, 5, true, false, "", [], 0, -60, 100, []⟩
        100 [] (fun _ => 0)).2.killed = true) ∧
    ((RiskManager.check ⟨50, 1000, 60, 5, true, false, "", [], 0, -50, 100, []⟩
        100 [] (fun _ => 0)).1.status = RiskStatus.warn ∧
      (RiskManager.check ⟨50, 1000, 60, 5, true, false, "", [], 0, -50, 100, []⟩
        100 [] (fun _ => 0)).2.killed = false) := by
  constructor
  · exact (riskManager_daily_pnl_stop
      ⟨50, 1000, 60, 5, true, false, "", [], 0, -60, 100, []⟩ 100 [] (fun _ => 0)
      rfl rfl (by norm_num) (by simp [RMState.recentErrors])).1 (by norm_num)
  · exact (riskManager_daily_pnl_stop
      ⟨50, 1000, 60, 5, true, false, "", [], 0, -50, 100, []⟩ 100 [] (fun _ => 0)
      rfl rfl (by norm_num) (by simp [RMState.recentErrors])).2 (by norm_num) (by norm_num)

/-- C2: in data-gather mode with the kill switch clear, a non-OK result
of the underlying checks makes check() append exactly one RiskEvent
carrying that status (and reason) with enforced = false and return OK;
an OK result appends nothing and is returned unchanged. -/
theorem riskManager_dataGather_logs_and_ok (s : RMState) (now : ℚ)
    (tokenIds : List String) (pos : String → ℚ)
    (henf : s.enforce = false) (hkill : s.killed = false) :
    ((RiskManager.runChecks s now tokenIds pos).1.status ≠ RiskStatus.ok →
      (RiskManager.check s now tokenIds pos).1 = ⟨RiskStatus.ok, ""⟩ ∧
      (RiskManager.check s now tokenIds pos).2.riskEvents =
        s.riskEvents ++
          [⟨now, (RiskManager.runChecks s now tokenIds pos).1.status,
            (RiskManager.runChecks s now tokenIds pos).1.reason, false⟩]) ∧
    ((RiskManager.runChecks s now tokenIds pos).1.status = RiskStatus.ok →
      (RiskManager.check s now tokenIds pos).1 =
        (RiskManager.runChecks s now tokenIds pos).1 ∧
      (RiskManager.check s now tokenIds pos).2.riskEvents = s.riskEvents) := by
  constructor
  · intro hne
    have hc : RiskManager.check s now tokenIds pos =
        (⟨RiskStatus.ok, ""⟩,
          RiskManager.logRiskEvent (RiskManager.runChecks s now tokenIds pos).2
            now (RiskManager.runChecks s now tokenIds pos).1 false) := by
      simp only [RiskManager.check, hkill, Bool.false_eq_true, if_false]
      rw [if_pos ⟨hne, by simp [henf]⟩]
    rw [hc]
    exact ⟨rfl, by
      simp only [RiskManager.logRiskEvent, runChecks_riskEvents]⟩
  · intro hok
    have hc : RiskManager.check s now tokenIds pos =
        RiskManager.runChecks s now tokenIds pos := by
      simp only [RiskManager.check, hkill, Bool.false_eq_true, if_false]
      rw [if_neg (by simp [hok]), if_neg (by simp [hok])]
    rw [hc]
    exact ⟨rfl, runChecks_riskEvents s now tokenIds pos⟩

/-- C2 witness: a data-gather state past its daily loss limit: the
underlying checks yield STOP, check() returns OK, and exactly one
non-enforced STOP event is appended. -/
theorem riskManager_dataGather_logs_and_ok_witness :
    (RiskManager.runChecks ⟨50, 1000, 60, 5, false, false, "", [], 0, -60, 100, []⟩
        100 [] (fun _ => 0)).1.status ≠ RiskStatus.ok ∧
    (RiskManager.check ⟨50, 1000, 60, 5, false, false, "", [], 0, -60, 100, []⟩
        100 [] (fun _ => 0)).1 = ⟨RiskStatus.ok, ""⟩ ∧
    (RiskManager.check ⟨50, 1000, 60, 5, false, false, "", [], 0, -60, 100, []⟩
        100 [] (fun _ => 0)).2.riskEvents =
      [⟨100, (RiskManager.runChecks ⟨50, 1000, 60, 5, false, false, "", [], 0, -60, 100, []⟩
          100 [] (fun _ => 0)).1.status,
        (RiskManager.runChecks ⟨50, 1000, 60, 5, false, false, "", [], 0, -60, 100, []⟩
          100 [] (fun _ => 0)).1.reason, false⟩] := by
  have hne : (RiskManager.runChecks ⟨50, 1000, 60, 5, false, false, "", [], 0, -60, 100, []⟩
      100 [] (fun _ => 0)).1.status ≠ RiskStatus.ok := by
    norm_num [RiskManager.runChecks, RiskManager.checkErrorRate,
      RiskManager.checkDailyPnl, RMState.recentErrors] <;> simp
  have h := (riskManager_dataGather_logs_and_ok
    ⟨50, 1000, 60, 5, false, false, "", [], 0, -60, 100, []⟩ 100 [] (fun _ => 0)
    rfl rfl).1 hne
  exact ⟨hne, h.1, by rw [h.2]; rfl⟩

/-! ## C3 and C9: order simulator -/

theorem checkFillsList_orders (tokenId : String) (bid ask feeRate : ℚ) :
    ∀ (l : List SimOrder) (pos : String → ℚ),
      (checkFillsList tokenId bid ask feeRate l pos).1 =
        l.map (fun o => if fillPred tokenId bid ask o then
          { o with filled := o.size, status := SimOrderStatus.matched } else o) := by
  intro l
  induction l with
  | nil => intro pos; rfl
  | cons o rest ih =>
    intro pos
    simp only [checkFillsList, List.map_cons]
    by_cases hp : fillPred tokenId bid ask o = true
    · rw [if_pos hp, if_pos hp]
      exact congrArg _ (ih _)
    · rw [if_neg hp, if_neg hp]
      exact congrArg _ (ih _)

theorem checkFillsList_trades (tokenId : String) (bid ask feeRate : ℚ) :
    ∀ (l : List SimOrder) (pos : String → ℚ),
      (checkFillsList tokenId bid ask feeRate l pos).2.1 =
        (l.filter (fillPred tokenId bid ask)).map (fun o => mkTrade o feeRate) := by
  intro l
  induction l with
  | nil => intro pos; rfl
  | cons o rest ih =>
    intro pos
    simp only [checkFillsList]
    by_cases hp : fillPred tokenId bid ask o = true
    · rw [if_pos hp, List.filter_cons_of_pos hp, List.map_cons]
      exact congrArg _ (ih _)
    · rw [if_neg hp, List.filter_cons_of_neg (by simp [hp])]
      exact ih _

theorem checkFillsList_count (tokenId : String) (bid ask feeRate : ℚ) :
    ∀ (l : List SimOrder) (pos : String → ℚ),
      (checkFillsList tokenId bid ask feeRate l pos).2.2.2 =
        (l.filter (fillPred tokenId bid ask)).length := by
  intro l
  induction l with
  | nil => intro pos; rfl
  | cons o rest ih =>
    intro pos
    simp only [checkFillsList]
    by_cases hp : fillPred tokenId bid ask o = true
    · rw [if_pos hp, List.filter_cons_of_pos hp, List.length_cons]
      exact congrArg _ (ih _)
    · rw [if_neg hp, List.filter_cons_of_neg (by simp [hp])]
      exact ih _

theorem checkFillsList_positions_other (tokenId : String) (bid ask feeRate : ℚ) :
    ∀ (l : List SimOrder) (pos : String → ℚ) (x : String), x ≠ tokenId →
      (checkFillsList tokenId bid ask feeRate l pos).2.2.1 x = pos x := by
  intro l
  induction l with
  | nil => intro pos x _; rfl
  | cons o rest ih =>
    intro pos x hx
    simp only [checkFillsList]
    by_cases hp : fillPred tokenId bid ask o = true
    · rw [if_pos hp, ih _ x hx]
      simp only [updatePosition, if_neg hx]
    · rw [if_neg hp]
      exact ih _ x hx

theorem checkFillsList_positions_token (tokenId : String) (bid ask feeRate : ℚ) :
    ∀ (l : List SimOrder) (pos : String → ℚ),
      (checkFillsList tokenId bid ask feeRate l pos).2.2.1 tokenId =
        pos tokenId +
          (((l.filter (fillPred tokenId bid ask)).map
            (fun o => if o.side = OrderSide.buy then o.size else -o.size)).sum) := by
  intro l
  induction l with
  | nil => intro pos; simp [checkFillsList]
  | cons o rest ih =>
    intro pos
    simp only [checkFillsList]
    by_cases hp : fillPred tokenId bid ask o = true
    · rw [if_pos hp, ih _, List.filter_cons_of_pos hp, List.map_cons, List.sum_cons]
      simp only [updatePosition, if_true]
      by_cases hside : o.side = OrderSide.buy
      · rw [if_pos hside, if_pos hside]; ring
      · rw [if_neg hside, if_neg hside]; ring
    · rw [if_neg hp, List.filter_cons_of_neg (by simp [hp])]
      exact ih _

/-- C3: check_fills fills exactly the LIVE orders on the token that cross
the touch (BUY at or above the ask, SELL at or below the bid); each
filled order is matched for its full size at its own price with fee
price*size*fee_rate appended as a trade, its status becomes MATCHED with
filled = size, the cached position moves by +size per BUY and -size per
SELL, other tokens are untouched, and the returned count is the number of
orders filled. -/
theorem simulator_checkFills_spec (s : SimState) (tokenId : String)
    (bid ask feeRate : ℚ) :
    (∀ o : SimOrder, fillPred tokenId bid ask o = true ↔
      (o.status = SimOrderStatus.live ∧ o.tokenId = tokenId ∧
        ((o.side = OrderSide.buy ∧ ask ≤ o.price) ∨
          (o.side = OrderSide.sell ∧ o.price ≤ bid)))) ∧
    (OrderSimulator.checkFills s tokenId bid ask feeRate).2.orders =
      s.orders.map (fun o => if fillPred tokenId bid ask o then
        { o with filled := o.size, status := SimOrderStatus.matched } else o) ∧
    (OrderSimulator.checkFills s tokenId bid ask feeRate).2.trades =
      s.trades ++ (s.orders.filter (fillPred tokenId bid ask)).map
        (fun o => mkTrade o feeRate) ∧
    (OrderSimulator.checkFills s tokenId bid ask feeRate).1 =
      (s.orders.filter (fillPred tokenId bid ask)).length ∧
    (OrderSimulator.checkFills s tokenId bid ask feeRate).2.positions tokenId =
      s.positions tokenId +
        (((s.orders.filter (fillPred tokenId bid ask)).map
          (fun o => if o.side = OrderSide.buy then o.size else -o.size)).sum) ∧
    (∀ x : String, x ≠ tokenId →
      (OrderSimulator.checkFills s tokenId bid ask feeRate).2.positions x =
        s.positions x) := by
  refine ⟨?_, ?_, ?_, ?_, ?_, ?_⟩
  · intro o
    simp only [fillPred, shouldFill, SimOrder.isLive]
    by_cases hb : o.side = OrderSide.buy
    · by_cases hask : ask ≤ o.price <;>
        simp [hb, hask] <;> cases o.side <;> simp_all
    · by_cases hbid : o.price ≤ bid <;>
        by_cases hlive : o.status = SimOrderStatus.live <;>
        simp [hb, hbid, hlive] <;> cases o.side <;> simp_all
  · exact checkFillsList_orders tokenId bid ask feeRate s.orders s.positions
  · exact congrArg _ (checkFillsList_trades tokenId bid ask feeRate s.orders s.positions)
  · exact checkFillsList_count tokenId bid ask feeRate s.orders s.positions
  · exact checkFillsList_positions_token tokenId bid ask feeRate s.orders s.positions
  · exact fun x hx =>
      checkFillsList_positions_other tokenId bid ask feeRate s.orders s.positions x hx

/-- C3 witness: one live BUY order at 3/5 on token tok with the ask at
11/20 crosses: one fill, position on tok becomes 10, another token stays
0. -/
theorem simulator_checkFills_spec_witness :
    (OrderSimulator.checkFills
      ⟨[⟨"o1", "tok", OrderSide.buy, 3/5, 10, 0, SimOrderStatus.live⟩], [],
        fun _ => 0⟩ "tok" (1/2) (11/20) (1/1000)).1 = 1 ∧
    (OrderSimulator.checkFills
      ⟨[⟨"o1", "tok", OrderSide.buy, 3/5, 10, 0, SimOrderStatus.live⟩], [],
        fun _ => 0⟩ "tok" (1/2) (11/20) (1/1000)).2.positions "tok" = 10 ∧
    (OrderSimulator.checkFills
      ⟨[⟨"o1", "tok", OrderSide.buy, 3/5, 10, 0, SimOrderStatus.live⟩], [],
        fun _ => 0⟩ "tok" (1/2) (11/20) (1/1000)).2.positions "other" = 0 := by
  have h := simulator_checkFills_spec
    ⟨[⟨"o1", "tok", OrderSide.buy, 3/5, 10, 0, SimOrderStatus.live⟩], [],
      fun _ => 0⟩ "tok" (1/2) (11/20) (1/1000)
  have hp : fillPred "tok" (1/2) (11/20)
      ⟨"o1", "tok", OrderSide.buy, 3/5, 10, 0, SimOrderStatus.live⟩ = true := by
    rw [h.1]
    exact ⟨rfl, rfl, Or.inl ⟨rfl, by norm_num⟩⟩
  refine ⟨?_, ?_, ?_⟩
  · rw [h.2.2.2.1]
    rw [List.filter_cons_of_pos hp]
    rfl
  · rw [h.2.2.2.2.1]
    rw [List.filter_cons_of_pos hp]
    norm_num
  · exact h.2.2.2.2.2 "other" (by decide)

theorem find?_id_decomp (orderId : String) :
    ∀ (l : List SimOrder) (o : SimOrder),
      l.find? (fun x => x.id = orderId) = Option.some o →
      ∃ l1 l2, l = l1 ++ o :: l2 ∧ (∀ x ∈ l1, x.id ≠ orderId) ∧
        cancelFirst l orderId =
          l1 ++ { o with status := SimOrderStatus.cancelled } :: l2 := by
  intro l
  induction l with
  | nil => intro o h; simp at h
  | cons a rest ih =>
    intro o h
    by_cases ha : a.id = orderId
    · rw [List.find?_cons_of_pos _ (by simp [ha])] at h
      obtain rfl : a = o := by injection h
      refine ⟨[], rest, by simp, by simp, ?_⟩
      simp only [cancelFirst, if_pos ha, List.nil_append]
    · rw [List.find?_cons_of_neg _ (by simp [ha])] at h
      obtain ⟨l1, l2, hl, hpre, hcf⟩ := ih o h
      refine ⟨a :: l1, l2, by rw [hl]; rfl, ?_, ?_⟩
      · intro x hx
        rcases List.mem_cons.mp hx with rfl | hx1
        · exact ha
        · exact hpre x hx1
      · simp only [cancelFirst, if_neg ha, hcf, List.cons_append]

/-- C9: cancel_order on an unknown id or a non-LIVE order returns false
and leaves the whole state unchanged; on a LIVE order it returns true and
rewrites exactly that order to status CANCELLED (keeping its filled
amount and every other field), leaving the trades and positions
untouched. Requires the dict invariant that order ids are unique. -/
theorem simulator_cancelOrder_spec (s : SimState) (orderId : String)
    (hnd : (s.orders.map SimOrder.id).Nodup) :
    ((OrderSimulator.cancelOrder s orderId).1 = false ↔
      ∀ o ∈ s.orders, o.id = orderId → o.status ≠ SimOrderStatus.live) ∧
    ((OrderSimulator.cancelOrder s orderId).1 = false →
      (OrderSimulator.cancelOrder s orderId).2 = s) ∧
    ((OrderSimulator.cancelOrder s orderId).1 = true →
      (OrderSimulator.cancelOrder s orderId).2.trades = s.trades ∧
      (OrderSimulator.cancelOrder s orderId).2.positions = s.positions ∧
      ∃ l1 o l2, s.orders = l1 ++ o :: l2 ∧ o.id = orderId ∧
        o.status = SimOrderStatus.live ∧ (∀ x ∈ l1, x.id ≠ orderId) ∧
        (OrderSimulator.cancelOrder s orderId).2.orders =
          l1 ++ { o with status := SimOrderStatus.cancelled } :: l2) := by
  rcases hfind : s.orders.find? (fun x => x.id = orderId) with _ | o
  · have hall := List.find?_eq_none.mp hfind
    have hres : OrderSimulator.cancelOrder s orderId = (false, s) := by
      simp only [OrderSimulator.cancelOrder, hfind]
    rw [hres]
    refine ⟨⟨fun _ o ho hid _ => hall o ho (by simp [hid]), fun _ => rfl⟩,
      fun _ => rfl, fun h => by simp at h⟩
  · have ho_id : o.id = orderId := by
      have := List.find?_some hfind
      simpa using this
    have ho_mem : o ∈ s.orders := List.mem_of_find?_eq_some hfind
    obtain ⟨l1, l2, hl, hpre, hcf⟩ := find?_id_decomp orderId s.orders o hfind
    by_cases hlive : o.status = SimOrderStatus.live
    · have hres : OrderSimulator.cancelOrder s orderId =
          (true, { s with orders := cancelFirst s.orders orderId }) := by
        simp only [OrderSimulator.cancelOrder, hfind, SimOrder.isLive, hlive]
        rfl
      rw [hres]
      refine ⟨?_, fun h => by simp at h, fun _ => ⟨rfl, rfl, l1, o, l2, hl,
        ho_id, hlive, hpre, hcf⟩⟩
      constructor
      · intro h; simp at h
      · intro hforall
        exact absurd hlive (hforall o ho_mem ho_id)
    · have hres : OrderSimulator.cancelOrder s orderId = (false, s) := by
        simp only [OrderSimulator.cancelOrder, hfind, SimOrder.isLive, hlive]
        rfl
      rw [hres]
      have hNoDupTail : o.id ∉ l2.map SimOrder.id := by
        rw [hl] at hnd
        simp only [List.map_append, List.map_cons] at hnd
        have := (List.nodup_append.mp hnd).2.1
        exact (List.nodup_cons.mp this).1
      refine ⟨⟨fun _ x hx hid => ?_, fun _ => rfl⟩,
        fun _ => rfl, fun h => by simp at h⟩
      rw [hl] at hx
      rcases List.mem_append.mp hx with hx1 | hx2
      · exact absurd hid (hpre x hx1)
      · rcases List.mem_cons.mp hx2 with rfl | hx3
        · exact hlive
        · exfalso
          apply hNoDupTail
          rw [ho_id, ← hid]
          exact List.mem_map_of_mem SimOrder.id hx3

/-- C9 witness: a two-order book with unique ids: cancelling the live
order o2 returns true and rewrites exactly o2 to CANCELLED; the matched
order o1 stays; trades and positions are untouched. -/
theorem simulator_cancelOrder_spec_witness :
    (OrderSimulator.cancelOrder
      ⟨[⟨"o1", "tok", OrderSide.buy, 1/2, 5, 5, SimOrderStatus.matched⟩,
        ⟨"o2", "tok", OrderSide.sell, 3/5, 7, 0, SimOrderStatus.live⟩], [],
        fun _ => 0⟩ "o2").1 = true ∧
    (OrderSimulator.cancelOrder
      ⟨[⟨"o1", "tok", OrderSide.buy, 1/2, 5, 5, SimOrderStatus.matched⟩,
        ⟨"o2", "tok", OrderSide.sell, 3/5, 7, 0, SimOrderStatus.live⟩], [],
        fun _ => 0⟩ "o2").2.orders =
      [⟨"o1", "tok", OrderSide.buy, 1/2, 5, 5, SimOrderStatus.matched⟩,
        ⟨"o2", "tok", OrderSide.sell, 3/5, 7, 0, SimOrderStatus.cancelled⟩] := by
  have h := simulator_cancelOrder_spec
    ⟨[⟨"o1", "tok", OrderSide.buy, 1/2, 5, 5, SimOrderStatus.matched⟩,
      ⟨"o2", "tok", OrderSide.sell, 3/5, 7, 0, SimOrderStatus.live⟩], [],
      fun _ => 0⟩ "o2" (by decide)
  have htrue : (OrderSimulator.cancelOrder
      ⟨[⟨"o1", "tok", OrderSide.buy, 1/2, 5, 5, SimOrderStatus.matched⟩,
        ⟨"o2", "tok", OrderSide.sell, 3/5, 7, 0, SimOrderStatus.live⟩], [],
        fun _ => 0⟩ "o2").1 = true := by
    cases hb : (OrderSimulator.cancelOrder
        ⟨[⟨"o1", "tok", OrderSide.buy, 1/2, 5, 5, SimOrderStatus.matched⟩,
          ⟨"o2", "tok", OrderSide.sell, 3/5, 7, 0, SimOrderStatus.live⟩], [],
          fun _ => 0⟩ "o2").1 with
    | false =>
      exact ((h.1.mp hb
        ⟨"o2", "tok", OrderSide.sell, 3/5, 7, 0, SimOrderStatus.live⟩
        (by simp) rfl) rfl).elim
    | true => rfl
  refine ⟨htrue, ?_⟩
  rfl
